import Mathlib

/-!
# Verification of the async-markov transition-model engine

This file gives a shallow embedding of the repository's word-transition
model (the `AsyncMarkov` class) and proves properties of the embedded
operations.

Conventions of the embedding:
* JavaScript objects used as word-keyed dictionaries (`related`, the node
  map) are modelled as insertion-ordered association lists; a JS `Map`
  has the same insertion-ordered semantics.
* The `sums` object is keyed by numbers; JavaScript iterates numeric-like
  keys in ascending numeric order regardless of insertion order, so it is
  modelled as an association list kept sorted by key (`objInsert`).
* `Math.trunc(Math.random() * n)` yields an arbitrary integer in `[0, n)`
  (and `0` when `n = 0`); a run's sequence of such draws is modelled by a
  `List Nat` of raw values reduced by `randIndex` (`v % n`, `0` for
  `n = 0`), so every stream denotes a valid run and every valid run is
  denoted by some stream.
* Thrown exceptions are modelled with `Except`/explicit error results that
  carry the model state at the time of the throw.
-/

abbrev Word := String

/-- A node of the transition table: the embedding of the source's
`{ total, mapped, sums, related }` record (src/unnamed/part_000). -/
structure Node where
  total : Nat
  mapped : Bool
  sums : List (Nat × Word)
  related : List (Word × Nat)
  deriving Repr, DecidableEq

/-- The model state: the `#nodes` map, the `#hasSentences` flag and the
`#edges` counter of the `AsyncMarkov` class (src/unnamed/part_000). -/
structure Model where
  nodes : List (Word × Node)
  hasSentences : Bool
  edges : Nat
  deriving Repr, DecidableEq

def emptyModel : Model := ⟨[], false, 0⟩

/-- First-match lookup in an association list (JS `Map.get` /
property read on an object used as a dictionary). -/
def assocGet {α : Type} : List (Word × α) → Word → Option α
  | [], _ => none
  | (k, v) :: t, w => if k = w then some v else assocGet t w

/-- In-place value update at a key (mutating a JS object held in a map
does not change the key's position). -/
def assocUpdate {α : Type} : List (Word × α) → Word → (α → α) → List (Word × α)
  | [], _, _ => []
  | (k, v) :: t, w, f => if k = w then (k, f v) :: t else (k, v) :: assocUpdate t w f

/-- JS `map.set(k, v)` / `obj[k] = v`: overwrite in place if the key is
present, otherwise append. -/
def mapSet {α : Type} : List (Word × α) → Word → α → List (Word × α)
  | [], k, v => [(k, v)]
  | (k', v') :: t, k, v => if k' = k then (k, v) :: t else (k', v') :: mapSet t k v

/-- Embeds `new Map(entries)`: insert the entries in order with `mapSet`
semantics (later duplicates overwrite, keeping the first position). -/
def mapFromList {α : Type} (l : List (Word × α)) : List (Word × α) :=
  l.foldl (fun acc p => mapSet acc p.1 p.2) []

/-- Writing `obj[k] = v` into a numeric-keyed JS object: iteration order
of such an object is ascending numeric, so the model keeps the list
sorted by key and overwrites an equal key in place. -/
def objInsert : List (Nat × Word) → Nat → Word → List (Nat × Word)
  | [], k, v => [(k, v)]
  | (k', v') :: t, k, v =>
    if k < k' then (k, v) :: (k', v') :: t
    else if k = k' then (k, v) :: t
    else (k', v') :: objInsert t k v

/-! ## Tokenization (the `add` method's input processing) -/

/-- JS `\s` whitespace test, restricted to the ASCII whitespace
characters that can occur in the inputs considered here. -/
def isWs (c : Char) : Bool := c = ' ' || c = '\t' || c = '\n' || c = '\r'

/-- Embeds `string.replace(/\s+/g, " ")`: collapse every run of whitespace to a
single space.  The flag records whether the previous character was
whitespace. -/
def collapseWs : Bool → List Char → List Char
  | _, [] => []
  | prevWs, c :: rest =>
    if isWs c then
      if prevWs then collapseWs true rest else ' ' :: collapseWs true rest
    else c :: collapseWs false rest

/-- Embeds `string.trim()`: drop whitespace from both ends. -/
def jsTrim (l : List Char) : List Char :=
  ((l.dropWhile isWs).reverse.dropWhile isWs).reverse

/-- Embeds `string.split(" ")`. -/
def splitSpace (cur : List Char) : List Char → List (List Char)
  | [] => [cur.reverse]
  | c :: rest => if c = ' ' then cur.reverse :: splitSpace [] rest else splitSpace (c :: cur) rest

/-- The tokenizer of `add` (src/unnamed/part_000 lines 49-53):
`string.trim().replace(/\s+/g, " ").split(" ").filter(Boolean)`. -/
def tokenize (s : String) : List Word :=
  (((splitSpace [] (collapseWs false (jsTrim s.data))).map fun l => String.mk l).filter
    fun t => t ≠ "")

/-- Embeds `sentenceRegex.test(string)` with `sentenceRegex = /[?!.]/`. -/
def sentenceTest (s : String) : Bool :=
  s.data.any fun c => c = '?' || c = '!' || c = '.'

/-! ## Ingestion (`add`, src/unnamed/part_000 lines 44-87) -/

/-- A freshly created node: `{ total: 0, mapped: false, sums: null, related: {} }`
(the `null`/`{}` distinction of `sums` is immaterial to the list model). -/
def initNode : Node := ⟨0, false, [], []⟩

/-- Embeds `related[second] = related[second] ?? 0; related[second]++` — create
the counter at the end on first sight, then increment in place. -/
def bumpRelated : List (Word × Nat) → Word → List (Word × Nat)
  | [], second => [(second, 1)]
  | (w, c) :: t, second =>
    if w = second then (w, c + 1) :: t else (w, c) :: bumpRelated t second

/-- The per-pair mutation of the node found for `first`:
`node.total++; node.mapped = false; node.related[second]++`. -/
def touchNode (n : Node) (second : Word) : Node :=
  { n with total := n.total + 1, mapped := false, related := bumpRelated n.related second }

/-- One iteration of the pair loop of `add`: create the node for `first`
if absent, then apply `touchNode`, and `this.#edges++`. -/
def addPair (m : Model) (p : Word × Word) : Model :=
  let nodes0 := if (assocGet m.nodes p.1).isSome then m.nodes else m.nodes ++ [(p.1, initNode)]
  { m with nodes := assocUpdate nodes0 p.1 (fun n => touchNode n p.2), edges := m.edges + 1 }

/-- The consecutive pairs `(data[i-1], data[i])` of the token list. -/
def pairsOf (l : List Word) : List (Word × Word) := l.zip l.tail

/-- Embeds `add(string)` (src/unnamed/part_000 lines 44-87): update the sentence
flag from the raw string, tokenize, and if at least two tokens result,
record every consecutive pair. -/
def add (m : Model) (s : String) : Model :=
  let m1 := { m with hasSentences := m.hasSentences || sentenceTest s }
  let data := tokenize s
  if data.length < 2 then m1 else (pairsOf data).foldl addPair m1

/-! ## Compilation and weighted selection (src/unnamed/part_000 lines 226-263) -/

/-- The loop body of `calculateWeights`: running total over `related` in
iteration order, writing `sums[total] = key` at each step into the
accumulator object. -/
def sumsInto (acc : List (Nat × Word)) (total : Nat) : List (Word × Nat) → List (Nat × Word)
  | [] => acc
  | (w, c) :: rest => sumsInto (objInsert acc (total + c) w) (total + c) rest

/-- Embeds `calculateWeights(node)` of src/unnamed/part_000 (lines 243-263, with
the default `force = false`): a no-op on a mapped node, otherwise
`node.sums = {}` followed by the running-sum loop and `node.mapped = true`. -/
def calculateWeights (n : Node) : Node :=
  if n.mapped then n else { n with sums := sumsInto [] 0 n.related, mapped := true }

/-- Embeds `Math.trunc(Math.random() * n)` given a raw draw `r`: an arbitrary
value below `n`, and `0` when `n = 0`. -/
def randIndex (r n : Nat) : Nat := if n = 0 then 0 else r % n

/-- The threshold walk of `selectWeighted`: first key strictly greater
than the roll wins. -/
def walkSums (roll : Nat) : List (Nat × Word) → Option Word
  | [] => none
  | (t, w) :: rest => if roll < t then some w else walkSums roll rest

/-- Embeds `selectWeighted(object)` of src/unnamed/part_000 (lines 226-241),
with the random draw `r` injected: compile if not mapped, roll below
`total`, walk the `sums` keys in ascending order.  Returns the picked
word and the (possibly compiled) node. -/
def selectWeighted (n : Node) (r : Nat) : Option Word × Node :=
  let node := calculateWeights n
  (walkSums (randIndex r node.total) node.sums, node)

/-! ## Serialization (`toJSON`/`load`/`reset`, src/unnamed/part_000 lines 161-205) -/

/-- The exported snapshot shape `{ edges, words, hasSentences }`.  The
`edges` field is optional on the load side (`typeof data.edges === "number"`
is tested), so it is an `Option` here; `toJSON` always produces it. -/
structure Snapshot where
  edges : Option Nat
  words : List (Word × Node)
  hasSentences : Bool
  deriving Repr, DecidableEq

/-- Embeds `finalize()`: `calculateWeights` on every node. -/
def finalize (m : Model) : Model :=
  { m with nodes := m.nodes.map fun p => (p.1, calculateWeights p.2) }

/-- Embeds `toJSON()` (src/unnamed/part_000 lines 171-178): finalize, then
export the edge counter, the node entries and the sentence flag. -/
def toJSON (m : Model) : Snapshot :=
  let m1 := finalize m
  ⟨some m1.edges, m1.nodes, m1.hasSentences⟩

/-- Embeds `reset()` (src/unnamed/part_000 lines 203-205): `this.#nodes.clear()`
and nothing else. -/
def reset (m : Model) : Model := { m with nodes := [] }

/-- Embeds `load(input)` (src/unnamed/part_000 lines 180-201): reset, take the
flag and the entries from the snapshot, and take `edges` from the
snapshot when it is a number, otherwise accumulate the node totals on
top of the instance's previous counter (`this.#edges += ...` after a
`reset` that does not zero it). -/
def load (st : Model) (rep : Snapshot) : Model :=
  let st1 := reset st
  let nodes := mapFromList rep.words
  { nodes := nodes
    hasSentences := rep.hasSentences
    edges :=
      match rep.edges with
      | some e => e
      | none => st1.edges + (nodes.map fun p => p.2.total).sum }

/-! ## Sanity checks of the embedding on concrete inputs -/

example : tokenize "The cat sat. The dog ran." =
    ["The", "cat", "sat.", "The", "dog", "ran."] := by decide

example : (add emptyModel "The cat sat. The dog ran.").nodes.length = 4 := by decide

example : (add emptyModel "The cat sat. The dog ran.").edges = 5 := by decide

example : (add emptyModel "a b").nodes = [("a", ⟨1, false, [], [("b", 1)]⟩)] := by decide

/-! ## JS number arguments (`amount` validation) -/

/-- A JavaScript number as far as the `amount` validation observes it:
`NaN`, the two infinities, or a finite value (modelled as a rational). -/
inductive JSNum where
  | nan
  | posInf
  | negInf
  | num (q : ℚ)
  deriving Repr, DecidableEq

/-- Embeds `Number.isFinite`. -/
def jsFinite : JSNum → Bool
  | .num _ => true
  | _ => false

/-- Embeds `Math.trunc` on a finite value: toward zero. -/
def truncRat (q : ℚ) : ℚ := if q < 0 then (⌈q⌉ : ℚ) else (⌊q⌋ : ℚ)

/-- Embeds `Math.trunc`: `NaN` and the infinities are fixed points. -/
def jstrunc : JSNum → JSNum
  | .nan => .nan
  | .posInf => .posInf
  | .negInf => .negInf
  | .num q => .num (truncRat q)

/-- JS `<=` on numbers: any comparison with `NaN` is false. -/
def jsLe : JSNum → JSNum → Bool
  | .nan, _ => false
  | _, .nan => false
  | .negInf, _ => true
  | _, .posInf => true
  | .posInf, _ => false
  | .num _, .negInf => false
  | .num a, .num b => a ≤ b

/-- JS `===` on numbers: `NaN` equals nothing, including itself. -/
def jsEq : JSNum → JSNum → Bool
  | .nan, _ => false
  | _, .nan => false
  | .posInf, .posInf => true
  | .negInf, .negInf => true
  | .num a, .num b => a == b
  | _, _ => false

/-- The guard `amount <= 0 || Math.trunc(amount) !== amount ||
!Number.isFinite(amount)` shared by `generateWords` and
`generateSentences`. -/
def badAmount (a : JSNum) : Bool :=
  jsLe a (.num 0) || !jsEq (jstrunc a) a || !jsFinite a

/-- The property the guard is meant to test: a positive finite integer. -/
def isPosFinInt : JSNum → Bool
  | .num q => decide (0 < q) && (q.den == 1)
  | _ => false

/-- The loop count a validated amount denotes. -/
def jsnumToNat : JSNum → Nat
  | .num q => q.num.toNat
  | _ => 0

/-! ## Generation (src/unnamed/part_000 lines 89-159) -/

/-- The three errors the generation entry points can throw. -/
inductive GenError where
  | invalidArgument
  | emptyModel
  | unsupported
  deriving Repr, DecidableEq

/-- JS truthiness of the `root` argument: `null`/`undefined` and the
empty string are falsy. -/
def jsFalsy : Option Word → Bool
  | none => true
  | some w => w = ""

/-- The root-selection step of `generateWord` (src/unnamed/part_000
lines 94-98): on a falsy root, pick a key at a random index (consuming
one draw); otherwise keep the given root.  Returns the effective root
and the remaining stream. -/
def pickRoot (m : Model) (root : Option Word) (σ : List Nat) : Word × List Nat :=
  if jsFalsy root then
    ((m.nodes.map Prod.fst).getD (randIndex (σ.headD 0) m.nodes.length) "", σ.tail)
  else (root.getD "", σ)

/-- The non-throwing branch of `generateWord` (src/unnamed/part_000
lines 94-103): select the effective root, look it up; on a hit, run
`selectWeighted` (consuming one more draw) and store the compiled node
back; on a miss return `null`. -/
def generateWordOk (m : Model) (root : Option Word) (σ : List Nat) :
    Option Word × Model × List Nat :=
  match assocGet m.nodes (pickRoot m root σ).1 with
  | none => (none, m, (pickRoot m root σ).2)
  | some n =>
    let res := selectWeighted n ((pickRoot m root σ).2.headD 0)
    (res.1, { m with nodes := assocUpdate m.nodes (pickRoot m root σ).1 fun _ => res.2 },
      (pickRoot m root σ).2.tail)

/-- Embeds `generateWord(root)` (src/unnamed/part_000 lines 89-104): throws when
the model has no nodes, otherwise never throws. -/
def generateWord (m : Model) (root : Option Word) (σ : List Nat) :
    Except (GenError × Model) (Option Word × Model × List Nat) :=
  if m.nodes.length = 0 then .error (.emptyModel, m) else .ok (generateWordOk m root σ)

/-- The `while (amount--)` loop of `generateWords` (src/unnamed/part_000
lines 118-130); `out` is the output accumulated in reverse.  On a falsy
word: with `stop` set, break; otherwise re-seed with `generateWord(null)`
and push whatever it returns. -/
def generateWordsLoop :
    Nat → Model → Option Word → Bool → List (Option Word) → List Nat →
    Except (GenError × Model) (List (Option Word) × Model × List Nat)
  | 0, m, _, _, out, σ => .ok (out.reverse, m, σ)
  | k + 1, m, cur, stop, out, σ =>
    match generateWord m cur σ with
    | .error e => .error e
    | .ok (w, m1, σ1) =>
      match w with
      | some _ => generateWordsLoop k m1 w stop (w :: out) σ1
      | none =>
        if stop then .ok (out.reverse, m1, σ1)
        else
          match generateWord m1 none σ1 with
          | .error e => .error e
          | .ok (w2, m2, σ2) => generateWordsLoop k m2 w2 stop (w2 :: out) σ2

/-- Embeds `generateWords(amount, root, options)` (src/unnamed/part_000 lines
106-133): validate the amount, push a truthy root, run the loop. -/
def generateWords (m : Model) (amount : JSNum) (root : Option Word) (stop : Bool)
    (σ : List Nat) : Except (GenError × Model) (List (Option Word) × Model × List Nat) :=
  if badAmount amount then .error (.invalidArgument, m)
  else
    generateWordsLoop (jsnumToNat amount) m root stop
      (if jsFalsy root then [] else [root]) σ

/-- The output of a generation run, when it did not throw. -/
def genOutput (r : Except (GenError × Model) (List (Option Word) × Model × List Nat)) :
    Option (List (Option Word)) :=
  match r with
  | .ok (out, _, _) => some out
  | .error _ => none

/-- Result of the (potentially unbounded) sentence loop: normal
termination, a thrown error carrying the state at the throw, or fuel
exhaustion (`more`: the source loop would keep running). -/
inductive SentResult where
  | ok (out : List (Option Word)) (m : Model) (σ : List Nat)
  | err (e : GenError) (m : Model)
  | more (m : Model)
  deriving Repr, DecidableEq

/-- Embeds `current && sentenceRegex.test(current)`. -/
def isSentenceWord : Option Word → Bool
  | none => false
  | some s => sentenceTest s

/-- The `while (amount > 0)` loop of `generateSentences`
(src/unnamed/part_000 lines 149-156), bounded by explicit fuel:
draw a word, push it, and decrement the count only when the word
contains a sentence delimiter. -/
def generateSentencesLoop :
    Nat → Model → Option Word → List (Option Word) → List Nat → Nat → SentResult
  | fuel, m, cur, out, σ, remaining =>
    if remaining = 0 then .ok out.reverse m σ
    else
      match fuel with
      | 0 => .more m
      | f + 1 =>
        match generateWord m cur σ with
        | .error (e, m1) => .err e m1
        | .ok (w, m1, σ1) =>
          generateSentencesLoop f m1 w (w :: out) σ1
            (if isSentenceWord w then remaining - 1 else remaining)

/-- Embeds `generateSentences(amount, root)` (src/unnamed/part_000 lines
135-159): the sentence-flag check comes first, then the amount check,
then the loop. -/
def generateSentences (m : Model) (amount : JSNum) (root : Option Word) (fuel : Nat)
    (σ : List Nat) : SentResult :=
  if !m.hasSentences then .err .unsupported m
  else if badAmount amount then .err .invalidArgument m
  else
    generateSentencesLoop fuel m root (if jsFalsy root then [] else [root]) σ
      (jsnumToNat amount)

/-! ## The part_001 variant of compilation (src/unnamed/part_001 lines 239-257)

Identical to part_000's `calculateWeights` except that it does not reset
`node.sums` before the running-sum loop: the loop writes into whatever
`sums` already holds. -/

def calculateWeightsV1 (n : Node) : Node :=
  if n.mapped then n else { n with sums := sumsInto n.sums 0 n.related, mapped := true }

/-- Embeds `selectWeighted` of src/unnamed/part_001 (lines 222-237), which
compiles through the part_001 `calculateWeights`. -/
def selectWeightedV1 (n : Node) (r : Nat) : Option Word × Node :=
  let node := calculateWeightsV1 n
  (walkSums (randIndex r node.total) node.sums, node)

/-- A draw against a named entry of the model through the part_001
sampler, storing the compiled node back. -/
def drawV1 (m : Model) (w : Word) (r : Nat) : Option Word × Model :=
  match assocGet m.nodes w with
  | none => (none, m)
  | some n =>
    let res := selectWeightedV1 n r
    (res.1, { m with nodes := assocUpdate m.nodes w fun _ => res.2 })

/-! ## The src/index.js variant of the table

Its node is `{ total, related, mapped }` with `mapped` either `null` or
the compiled sums object, and its `add` does **not** touch `mapped` when
recording a pair. -/

structure LNode where
  total : Nat
  related : List (Word × Nat)
  mapped : Option (List (Nat × Word))
  deriving Repr, DecidableEq

structure LModel where
  words : List (Word × LNode)
  hasSentences : Bool
  deriving Repr, DecidableEq

/-- The src/index.js tokenizer (line 15):
`string.replace(/\s+/g, " ").split(" ")` — no trim, no filter. -/
def legacyTokenize (s : String) : List Word :=
  (splitSpace [] (collapseWs false s.data)).map fun l => String.mk l

/-- The pair loop body of src/index.js `add` (lines 25-38): create
`{ total: 0, related: {}, mapped: null }` if absent, seed the counter,
then `total++` and `related[second]++` — `mapped` is left as it is. -/
def legacyAddPair (m : LModel) (p : Word × Word) : LModel :=
  let words0 :=
    if (assocGet m.words p.1).isSome then m.words
    else m.words ++ [(p.1, ⟨0, [], none⟩)]
  { m with
    words := assocUpdate words0 p.1 fun n =>
      { n with total := n.total + 1, related := bumpRelated n.related p.2 } }

/-- Embeds `add(string)` of src/index.js (lines 10-42). -/
def legacyAdd (m : LModel) (s : String) : LModel :=
  let m1 := { m with hasSentences := m.hasSentences || sentenceTest s }
  let data := legacyTokenize s
  if data.length < 2 then m1 else (pairsOf data).foldl legacyAddPair m1

/-- Embeds `calculateWeights(object)` of src/index.js (lines 161-174):
unconditionally rebuilds `object.mapped = {}` from `related`. -/
def legacyCalculateWeights (n : LNode) : LNode :=
  { n with mapped := some (sumsInto [] 0 n.related) }

/-- Embeds `selectWeighted(object)` of src/index.js (lines 146-159): compile
only when `object.mapped` is falsy, then roll and walk the keys of the
(possibly stale) `mapped` object. -/
def legacySelectWeighted (n : LNode) (r : Nat) : Option Word × LNode :=
  let node := if n.mapped.isSome then n else legacyCalculateWeights n
  (walkSums (randIndex r node.total) (node.mapped.getD []), node)

/-- A draw against a named entry of the src/index.js model, storing the
compiled node back. -/
def legacyDraw (m : LModel) (w : Word) (r : Nat) : Option Word × LModel :=
  match assocGet m.words w with
  | none => (none, m)
  | some n =>
    let res := legacySelectWeighted n r
    (res.1, { m with words := assocUpdate m.words w fun _ => res.2 })

/-! ## Properties of compilation: the fresh cumulative distribution -/

/-- Sum of the observation counts of a `related` list. -/
def sumCounts : List (Word × Nat) → Nat
  | [] => 0
  | p :: t => p.2 + sumCounts t

/-- The cumulative distribution built from running total `t0` when the
writes land in an empty object: plain prefix sums in iteration order. -/
def straightSums (t0 : Nat) : List (Word × Nat) → List (Nat × Word)
  | [] => []
  | (w, c) :: rest => (t0 + c, w) :: straightSums (t0 + c) rest

theorem objInsert_append : ∀ (l : List (Nat × Word)) (k : Nat) (v : Word),
    (∀ p ∈ l, p.1 < k) → objInsert l k v = l ++ [(k, v)]
  | [], _, _, _ => rfl
  | (k', v') :: t, k, v, h => by
    have hk : k' < k := h (k', v') (List.mem_cons_self _ _)
    have ht : objInsert t k v = t ++ [(k, v)] :=
      objInsert_append t k v fun p hp => h p (List.mem_cons_of_mem _ hp)
    simp [objInsert, Nat.not_lt.2 (Nat.le_of_lt hk), Nat.ne_of_gt hk, ht]

theorem sumsInto_eq_append : ∀ (rel : List (Word × Nat)) (acc : List (Nat × Word)) (t0 : Nat),
    (∀ p ∈ rel, 0 < p.2) → (∀ p ∈ acc, p.1 ≤ t0) →
    sumsInto acc t0 rel = acc ++ straightSums t0 rel
  | [], acc, t0, _, _ => by simp [sumsInto, straightSums]
  | (w, c) :: rest, acc, t0, hpos, hacc => by
    have hc : 0 < c := hpos (w, c) (List.mem_cons_self _ _)
    have h1 : objInsert acc (t0 + c) w = acc ++ [(t0 + c, w)] :=
      objInsert_append acc (t0 + c) w fun p hp => by
        have := hacc p hp; omega
    have h2 : sumsInto (acc ++ [(t0 + c, w)]) (t0 + c) rest
        = (acc ++ [(t0 + c, w)]) ++ straightSums (t0 + c) rest :=
      sumsInto_eq_append rest (acc ++ [(t0 + c, w)]) (t0 + c)
        (fun p hp => hpos p (List.mem_cons_of_mem _ hp))
        (by
          intro p hp
          rcases List.mem_append.1 hp with h | h
          · exact Nat.le_trans (hacc p h) (by omega)
          · simp at h; simp [h])
    simp only [sumsInto, h1, h2, straightSums, List.append_assoc, List.singleton_append]

/-- The threshold walk always lands inside the distribution when the roll
is inside the running-total window and all counts are positive. -/
theorem walkSums_straight : ∀ (rel : List (Word × Nat)) (t0 roll : Nat),
    (∀ p ∈ rel, 0 < p.2) → t0 ≤ roll → roll < t0 + sumCounts rel →
    ∃ w, walkSums roll (straightSums t0 rel) = some w ∧ w ∈ rel.map Prod.fst
  | [], t0, roll, _, h1, h2 => by simp [sumCounts] at h2; omega
  | (w, c) :: rest, t0, roll, hpos, h1, h2 => by
    by_cases h : roll < t0 + c
    · exact ⟨w, by simp [straightSums, walkSums, h], by simp⟩
    · have hrec := walkSums_straight rest (t0 + c) roll
        (fun p hp => hpos p (List.mem_cons_of_mem _ hp))
        (Nat.le_of_not_lt h)
        (by simp [sumCounts] at h2; omega)
      rcases hrec with ⟨w', hw, hmem⟩
      exact ⟨w', by simp [straightSums, walkSums, h, hw], by simp [hmem]⟩

theorem sumCounts_eq_zero : ∀ (rel : List (Word × Nat)),
    (∀ p ∈ rel, 0 < p.2) → sumCounts rel = 0 → rel = []
  | [], _, _ => rfl
  | (w, c) :: _, hpos, h0 => by
    have := hpos (w, c) (List.mem_cons_self _ _)
    simp [sumCounts] at h0
    omega

/-- The mass-conservation well-formedness of an entry (spec §3): every
recorded count is positive and `total` is their sum.  Entries produced by
`add` satisfy this. -/
def wfNode (n : Node) : Prop :=
  (∀ p ∈ n.related, 0 < p.2) ∧ n.total = sumCounts n.related

instance (n : Node) : Decidable (wfNode n) := by
  unfold wfNode; infer_instance

theorem calculateWeights_total (n : Node) : (calculateWeights n).total = n.total := by
  unfold calculateWeights; split <;> rfl

theorem calculateWeights_related (n : Node) : (calculateWeights n).related = n.related := by
  unfold calculateWeights; split <;> rfl

/-- C3 -- For every well-formed Entry whose compiled cache, if marked
clean, is the one compilation produces (the invariant every entry
reachable through `add`/`selectWeighted` maintains, since `add` sets
`mapped = false` on every touch), and for every roll in `[0, total)`,
`selectWeighted` returns some word and that word is a key of `related`;
for an Entry with `total = 0` it returns none without failing. -/
theorem selectWeighted_covers (n : Node) (r : Nat)
    (hwf : wfNode n) (hcons : n.mapped = true → n.sums = sumsInto [] 0 n.related) :
    (0 < n.total → r < n.total →
      ∃ w, (selectWeighted n r).1 = some w ∧ w ∈ n.related.map Prod.fst)
    ∧ (n.total = 0 → (selectWeighted n r).1 = none) := by
  obtain ⟨hpos, htot⟩ := hwf
  have hs : (calculateWeights n).sums = sumsInto [] 0 n.related := by
    unfold calculateWeights
    by_cases h : n.mapped
    · simp [h, hcons h]
    · simp [h]
  have hstraight : sumsInto ([] : List (Nat × Word)) 0 n.related = straightSums 0 n.related :=
    sumsInto_eq_append n.related [] 0 hpos (by simp)
  have hsel : (selectWeighted n r).1
      = walkSums (randIndex r (calculateWeights n).total) (calculateWeights n).sums := rfl
  constructor
  · intro h0 hr
    have hroll : randIndex r (calculateWeights n).total = r := by
      rw [calculateWeights_total]
      unfold randIndex
      rw [if_neg (by omega), Nat.mod_eq_of_lt hr]
    rw [hsel, hroll, hs, hstraight]
    exact walkSums_straight n.related 0 r hpos (Nat.zero_le r)
      (by rw [Nat.zero_add, ← htot]; exact hr)
  · intro h0
    have hrel : n.related = [] := sumCounts_eq_zero n.related hpos (by omega)
    rw [hsel, hs, hstraight, hrel]
    rfl

/-! ## Properties of serialization -/

theorem mapSet_append {α : Type} : ∀ (l : List (Word × α)) (k : Word) (v : α),
    k ∉ l.map Prod.fst → mapSet l k v = l ++ [(k, v)]
  | [], _, _, _ => rfl
  | (k', v') :: t, k, v, h => by
    have h' : k ∉ t.map Prod.fst := fun hm => h (by simp [hm])
    have hne : k' ≠ k := fun he => h (by simp [he])
    simp [mapSet, hne, mapSet_append t k v h']

theorem foldl_mapSet_append {α : Type} : ∀ (l acc : List (Word × α)),
    (l.map Prod.fst).Nodup → (∀ k ∈ l.map Prod.fst, k ∉ acc.map Prod.fst) →
    l.foldl (fun acc p => mapSet acc p.1 p.2) acc = acc ++ l
  | [], acc, _, _ => by simp
  | (k, v) :: t, acc, hnd, hdis => by
    have h1 : mapSet acc k v = acc ++ [(k, v)] :=
      mapSet_append acc k v (hdis k (by simp))
    have hnd' : (t.map Prod.fst).Nodup := (List.nodup_cons.1 (by simpa using hnd)).2
    have hk : k ∉ t.map Prod.fst := (List.nodup_cons.1 (by simpa using hnd)).1
    have hdis' : ∀ k' ∈ t.map Prod.fst, k' ∉ (acc ++ [(k, v)]).map Prod.fst := by
      intro k' hk'
      simp only [List.map_append, List.mem_append]
      rintro (h | h)
      · exact hdis k' (by simp [hk']) h
      · simp at h
        exact hk (h ▸ hk')
    have := foldl_mapSet_append t (acc ++ [(k, v)]) hnd' hdis'
    simp only [List.foldl_cons, h1, this, List.append_assoc, List.singleton_append]

/-- Rebuilding a `Map` from entries with distinct keys reproduces the
entry list. -/
theorem mapFromList_self {α : Type} (l : List (Word × α))
    (h : (l.map Prod.fst).Nodup) : mapFromList l = l := by
  have := foldl_mapSet_append l [] h (by simp)
  simpa [mapFromList] using this

theorem assocGet_mapVal {α β : Type} (f : α → β) :
    ∀ (l : List (Word × α)) (w : Word),
    assocGet (l.map fun p => (p.1, f p.2)) w = (assocGet l w).map f
  | [], _ => rfl
  | (k, v) :: t, w => by
    by_cases h : k = w <;> simp [assocGet, h, assocGet_mapVal f t w]

/-- C4 -- Loading a model's own exported snapshot reproduces the model:
same number of entries, same `edges` counter, same sentence flag, and for
every word the same `related` counts.  The hypothesis is that the model's
keys are distinct, which every model built through `add` satisfies. -/
theorem load_toJSON_roundtrip (st m : Model) (h : (m.nodes.map Prod.fst).Nodup) :
    (load st (toJSON m)).nodes.length = m.nodes.length
    ∧ (load st (toJSON m)).edges = m.edges
    ∧ (load st (toJSON m)).hasSentences = m.hasSentences
    ∧ ∀ w, (assocGet (load st (toJSON m)).nodes w).map Node.related
        = (assocGet m.nodes w).map Node.related := by
  have hwords : (toJSON m).words = m.nodes.map fun p => (p.1, calculateWeights p.2) := rfl
  have hkeys : ((toJSON m).words.map Prod.fst) = m.nodes.map Prod.fst := by
    rw [hwords]; simp
  have hml : mapFromList (toJSON m).words = (toJSON m).words :=
    mapFromList_self _ (by rw [hkeys]; exact h)
  have hnodes : (load st (toJSON m)).nodes = (toJSON m).words := hml
  refine ⟨?_, ?_, ?_, ?_⟩
  · rw [hnodes, hwords]; simp
  · rfl
  · rfl
  · intro w
    rw [hnodes, hwords, assocGet_mapVal]
    cases assocGet m.nodes w <;> simp [calculateWeights_related]

/-- A concrete two-sentence model used as the round-trip witness input. -/
def c4model : Model := add (add emptyModel "a b. c") "a d"

/-- C4 witness: the round trip evaluated on `c4model`. -/
theorem load_toJSON_roundtrip_witness :
    (load emptyModel (toJSON c4model)).edges = c4model.edges
    ∧ (assocGet (load emptyModel (toJSON c4model)).nodes "a").map Node.related
        = (assocGet c4model.nodes "a").map Node.related :=
  ⟨(load_toJSON_roundtrip emptyModel c4model (by decide)).2.1,
   (load_toJSON_roundtrip emptyModel c4model (by decide)).2.2.2 "a"⟩

/-! ## C7: what `load` does to compiled state -/

/-- A snapshot whose single entry is persisted as compiled (`mapped:
true`) with a stored distribution pointing at `"z"`, a word absent from
`related`. -/
def c7rep : Snapshot := ⟨some 1, [("a", ⟨1, true, [(1, "z")], [("b", 1)]⟩)], false⟩

/-- C7 counterexample -- after `load`, the entry still carries
`mapped = true`, and the sampler returns `"z"` straight from the stored
distribution: the stored compiled state is trusted, not discarded, so a
loaded entry is not treated as dirty and the distribution is not rebuilt
from `related` (a rebuild would return `"b"`). -/
theorem load_trusts_stored_distribution :
    (assocGet (load emptyModel c7rep).nodes "a").map Node.mapped = some true
    ∧ ((assocGet (load emptyModel c7rep).nodes "a").map fun n =>
        (selectWeighted n 0).1) = some (some "z")
    ∧ ((assocGet (load emptyModel c7rep).nodes "a").map fun n =>
        assocGet n.related "z") = some none
    ∧ ((assocGet (load emptyModel c7rep).nodes "a").map fun n =>
        walkSums 0 (sumsInto [] 0 n.related)) = some (some "b") := by
  decide

/-- C7 (amended) -- `load` preserves every persisted entry verbatim,
its `mapped` flag and stored `sums` included, and the sampler leaves a
node persisted as compiled untouched (recompilation happens only for
entries whose persisted flag is false). -/
theorem load_preserves_compiled (st : Model) (rep : Snapshot) (w : Word) (n : Node)
    (hkeys : (rep.words.map Prod.fst).Nodup) (hget : assocGet rep.words w = some n) :
    assocGet (load st rep).nodes w = some n
    ∧ (n.mapped = true → ∀ r, (selectWeighted n r).2 = n) := by
  constructor
  · have hnodes : (load st rep).nodes = rep.words := mapFromList_self _ hkeys
    rw [hnodes]; exact hget
  · intro hm r
    show calculateWeights n = n
    unfold calculateWeights
    rw [if_pos hm]

/-- C7 witness: `load_preserves_compiled` evaluated on the concrete
snapshot `c7rep`. -/
theorem load_preserves_compiled_witness :
    assocGet (load emptyModel c7rep).nodes "a" = some ⟨1, true, [(1, "z")], [("b", 1)]⟩
    ∧ (selectWeighted (⟨1, true, [(1, "z")], [("b", 1)]⟩ : Node) 0).2
        = ⟨1, true, [(1, "z")], [("b", 1)]⟩ :=
  ⟨(load_preserves_compiled emptyModel c7rep "a" _ (by decide) (by decide)).1,
   (load_preserves_compiled emptyModel c7rep "a" _ (by decide) (by decide)).2 (by decide) 0⟩

/-! ## C8: what `reset` clears -/

/-- A model with one recorded pair and an observed sentence delimiter. -/
def c8model : Model := add emptyModel "a. b"

/-- C8 counterexample -- after `reset` on a model with `edges = 1` and
`hasSentences = true`, the entries are gone but the counter and the flag
are not cleared. -/
theorem reset_keeps_counters :
    ¬ ((reset c8model).nodes = [] ∧ (reset c8model).edges = 0
        ∧ (reset c8model).hasSentences = false) := by
  decide

/-- C8 (amended) -- `reset()` clears all Entries, and leaves `edges` and
`hasSentences` exactly as they were. -/
theorem reset_clears_only_nodes (m : Model) :
    (reset m).nodes = [] ∧ (reset m).edges = m.edges
    ∧ (reset m).hasSentences = m.hasSentences :=
  ⟨rfl, rfl, rfl⟩

/-! ## C1: dirty-marking in the src/index.js variant -/

/-- The src/index.js model after `add("a b")`. -/
def c1model0 : LModel := legacyAdd ⟨[], false⟩ "a b"

/-- Then after a draw on `"a"` compiled the entry (`mapped` now set). -/
def c1model1 : LModel := (legacyDraw c1model0 "a" 0).2

/-- Then after `add("a c")` touched the entry again. -/
def c1model2 : LModel := legacyAdd c1model1 "a c"

/-- C1 -- evaluation of src/index.js at the failing input: after the
second `add` the entry for `"a"` has `total = 2` and `"c"` among its
`related` keys, yet `mapped` still holds the stale one-threshold
distribution (the `add` of src/index.js never resets `mapped`), so the
entry was not marked dirty; a subsequent draw with roll `1` walks the
stale distribution and returns none instead of reflecting the updated
counts (a fresh compilation would return `"c"`). -/
theorem legacyAdd_leaves_stale_mapped :
    (assocGet c1model2.words "a").map LNode.total = some 2
    ∧ ((assocGet c1model2.words "a").map fun n => assocGet n.related "c") = some (some 1)
    ∧ ((assocGet c1model2.words "a").map fun n => n.mapped) = some (some [(1, "b")])
    ∧ (legacyDraw c1model2 "a" 1).1 = none
    ∧ ((assocGet c1model2.words "a").map fun n =>
        walkSums 1 (sumsInto [] 0 n.related)) = some (some "c") := by
  decide

/-- For contrast, the part_000 `add` does mark every touched entry
dirty: after the same sequence against the part_000 embedding the entry
is `mapped = false` again, and the draw reflects the updated counts. -/
theorem add_marks_dirty_after_draw :
    ((assocGet (add ((drawV1 (add emptyModel "a b") "a" 0).2) "a c").nodes "a").map
      fun n => n.mapped) = some false := by
  decide

/-! ## C2: recompilation in the part_001 variant -/

/-- A part_001 model after `add("a b")` and `add("a c")`. -/
def c2model0 : Model := add (add emptyModel "a b") "a c"

/-- Then after a draw compiled the entry (`sums = [(1,b),(2,c)]`). -/
def c2model1 : Model := (drawV1 c2model0 "a" 0).2

/-- Then after five more `add("a b")` calls (entry dirty again,
`related = [(b,6),(c,1)]`, stale `sums` still in the object). -/
def c2model2 : Model := (List.replicate 5 "a b").foldl add c2model1

/-- C2 -- evaluation of the part_001 `calculateWeights` at the failing
entry: because it does not clear `sums` before the running-sum loop, the
recompiled distribution keeps the stale thresholds `(1,b)` and `(2,c)`
next to the fresh `(6,b)` and `(7,c)` — `"b"` and `"c"` each appear twice
as a threshold target instead of exactly once, and a draw with roll `1`
through the part_001 sampler returns `"c"` where the correctly rebuilt
distribution (thresholds `[(6,b),(7,c)]`) returns `"b"`. -/
theorem calculateWeightsV1_keeps_stale_sums :
    ((assocGet c2model2.nodes "a").map fun n => (calculateWeightsV1 n).sums)
      = some [(1, "b"), (2, "c"), (6, "b"), (7, "c")]
    ∧ ((assocGet c2model2.nodes "a").map fun n =>
        (((calculateWeightsV1 n).sums.filter fun p => p.2 = "b").length)) = some 2
    ∧ ((assocGet c2model2.nodes "a").map fun n => (selectWeightedV1 n 1).1)
      = some (some "c")
    ∧ ((assocGet c2model2.nodes "a").map fun n =>
        walkSums 1 (sumsInto [] 0 n.related)) = some (some "b") := by
  decide

/-! ## C5: the dead-end halt scenario -/

/-- Embeds the fact that `generateWord` does not throw when the model is non-empty. -/
theorem generateWord_ok_of_len (m : Model) (root : Option Word) (σ : List Nat)
    (h : m.nodes.length ≠ 0) : generateWord m root σ = .ok (generateWordOk m root σ) := by
  simp [generateWord, h]

theorem generateWordsLoop_step_some (k : Nat) (m : Model) (cur : Option Word) (stop : Bool)
    (out : List (Option Word)) (σ : List Nat) (w : Word) (m1 : Model) (σ1 : List Nat)
    (h : generateWord m cur σ = .ok (some w, m1, σ1)) :
    generateWordsLoop (k + 1) m cur stop out σ
      = generateWordsLoop k m1 (some w) stop (some w :: out) σ1 := by
  simp [generateWordsLoop, h]

theorem generateWordsLoop_step_stop (k : Nat) (m : Model) (cur : Option Word)
    (out : List (Option Word)) (σ : List Nat) (m1 : Model) (σ1 : List Nat)
    (h : generateWord m cur σ = .ok (none, m1, σ1)) :
    generateWordsLoop (k + 1) m cur true out σ = .ok (out.reverse, m1, σ1) := by
  simp [generateWordsLoop, h]

/-- The claim-C5 scenario model, exactly one Entry `"a" -> { "b": 1 }`
(the model `add` builds from the single observation `"a b"`). -/
def c5model : Model := ⟨[("a", ⟨1, false, [], [("b", 1)]⟩)], false, 1⟩

theorem c5model_from_add : add emptyModel "a b" = c5model := by decide

/-- C5 counterexample -- `generateWords(3, null, { stop: true })` on that
model returns the single word `"b"`, not the two words `["a", "b"]`: the
randomly selected seed key is never emitted, only drawn successors are. -/
theorem generateWords_dead_end_output_concrete :
    genOutput (generateWords c5model (.num 3) none true [0, 0, 0]) = some [some "b"]
    ∧ genOutput (generateWords c5model (.num 3) none true [0, 0, 0])
        ≠ some [some "a", some "b"] := by
  decide

/-- The model after the first draw of the C5 scenario: the entry for
`"a"` is compiled, nothing else changed. -/
def c5compiled : Model := ⟨[("a", ⟨1, true, [(1, "b")], [("b", 1)]⟩)], false, 1⟩

theorem c5_first_draw (σ : List Nat) :
    generateWordOk c5model none σ = (some "b", c5compiled, σ.tail.tail) := by
  simp [generateWordOk, pickRoot, c5model, c5compiled, jsFalsy, randIndex, Nat.mod_one,
    assocGet, selectWeighted, calculateWeights, sumsInto, objInsert, walkSums, assocUpdate]

theorem c5_second_draw (σ : List Nat) :
    generateWordOk c5compiled (some "b") σ = (none, c5compiled, σ) := by
  simp [generateWordOk, pickRoot, c5compiled, jsFalsy, assocGet]

/-- C5 (amended) -- on the scenario model, `generateWords(3, start=none,
haltOnDeadEnd=true)` stops early at the dead end and returns exactly the
one-word output `["b"]` (the seed entry `"a"` is drawn from but not
emitted), for every random stream. -/
theorem generateWords_dead_end_output (σ : List Nat) :
    genOutput (generateWords c5model (.num 3) none true σ) = some [some "b"] := by
  have hbad : badAmount (.num 3) = false := by decide
  have hnat : jsnumToNat (.num 3) = 3 := by decide
  have hlen : c5model.nodes.length ≠ 0 := by decide
  have hlen' : c5compiled.nodes.length ≠ 0 := by decide
  have h1 : generateWord c5model none σ = .ok (some "b", c5compiled, σ.tail.tail) := by
    rw [generateWord_ok_of_len c5model none σ hlen, c5_first_draw]
  have h2 : generateWord c5compiled (some "b") σ.tail.tail
      = .ok (none, c5compiled, σ.tail.tail) := by
    rw [generateWord_ok_of_len c5compiled (some "b") σ.tail.tail hlen', c5_second_draw]
  simp only [generateWords, hbad, Bool.false_eq_true, if_false, hnat, jsFalsy, if_pos]
  rw [show (3 : Nat) = 2 + 1 from rfl,
    generateWordsLoop_step_some 2 c5model none true [] σ "b" c5compiled σ.tail.tail h1,
    show (2 : Nat) = 1 + 1 from rfl,
    generateWordsLoop_step_stop 1 c5compiled (some "b") [some "b"] σ.tail.tail
      c5compiled σ.tail.tail h2]
  rfl

/-! ## C6: the ingestion scenario -/

/-- The model after ingesting `"The cat sat. The dog ran."`. -/
def c6model : Model := add emptyModel "The cat sat. The dog ran."

/-- C6 counterexample -- the scenario yields 4 distinct predecessor
Entries (`"The"`, `"cat"`, `"sat."`, `"dog"`; `"ran."` is never a
predecessor), not 5, so the claimed conjunction is false. -/
theorem ingest_scenario_size_not_five :
    ¬ (c6model.hasSentences = true ∧ c6model.nodes.length = 5 ∧ c6model.edges = 5) := by
  decide

/-- C6 (amended) -- after ingesting `"The cat sat. The dog ran."` into an
empty model, `hasSentences` is true, the model holds 4 distinct
predecessor Entries, and `edges = 5`. -/
theorem ingest_scenario_counts :
    c6model.hasSentences = true ∧ c6model.nodes.length = 4 ∧ c6model.edges = 5 := by
  decide

/-! ## C9: argument validation and error purity -/

theorem truncRat_eq_self_iff (q : ℚ) : truncRat q = q ↔ q.den = 1 := by
  constructor
  · intro h
    unfold truncRat at h
    split at h <;> · rw [← h]; exact Rat.den_intCast _
  · intro h
    obtain ⟨z, hz⟩ : ∃ z : ℤ, q = (z : ℚ) := ⟨q.num, ((Rat.den_eq_one_iff q).1 h).symm⟩
    subst hz
    unfold truncRat
    by_cases hq : (z : ℚ) < 0 <;> simp [hq]

/-- The source's guard is exactly the complement of "positive finite
integer". -/
theorem badAmount_eq_not_posFinInt (a : JSNum) : badAmount a = !isPosFinInt a := by
  cases a with
  | nan => rfl
  | posInf => rfl
  | negInf => rfl
  | num q =>
    simp only [badAmount, isPosFinInt, jsLe, jstrunc, jsEq, jsFinite, Bool.not_true,
      Bool.or_false]
    by_cases h1 : q ≤ 0
    · have h2 : ¬ 0 < q := not_lt.2 h1
      simp [h1, h2]
    · have h2 : 0 < q := not_le.1 h1
      by_cases h3 : q.den = 1
      · have h4 : truncRat q = q := (truncRat_eq_self_iff q).2 h3
        simp [h1, h2, h3, h4]
      · have h4 : truncRat q ≠ q := fun hh => h3 ((truncRat_eq_self_iff q).1 hh)
        simp [h1, h2, h3, h4]

theorem assocUpdate_length {α : Type} : ∀ (l : List (Word × α)) (w : Word) (f : α → α),
    (assocUpdate l w f).length = l.length
  | [], _, _ => rfl
  | (k, v) :: t, w, f => by
    by_cases h : k = w <;> simp [assocUpdate, h, assocUpdate_length t w f]

/-- A draw never changes the number of entries. -/
theorem generateWordOk_nodes_length (m : Model) (root : Option Word) (σ : List Nat) :
    (generateWordOk m root σ).2.1.nodes.length = m.nodes.length := by
  simp only [generateWordOk]
  split
  · rfl
  · simp [assocUpdate_length]

theorem generateWord_error_eq (m : Model) (root : Option Word) (σ : List Nat)
    (e : GenError) (m' : Model) (h : generateWord m root σ = .error (e, m')) :
    m' = m ∧ m.nodes.length = 0 := by
  unfold generateWord at h
  by_cases hl : m.nodes.length = 0
  · rw [if_pos hl] at h
    simp only [Except.error.injEq, Prod.mk.injEq] at h
    exact ⟨h.2.symm, hl⟩
  · rw [if_neg hl] at h
    exact absurd h (by simp)

theorem generateWordsLoop_succ (k : Nat) (m : Model) (cur : Option Word) (stop : Bool)
    (out : List (Option Word)) (σ : List Nat) :
    generateWordsLoop (k + 1) m cur stop out σ =
      match generateWord m cur σ with
      | .error e => .error e
      | .ok (w, m1, σ1) =>
        match w with
        | some _ => generateWordsLoop k m1 w stop (w :: out) σ1
        | none =>
          if stop then .ok (out.reverse, m1, σ1)
          else
            match generateWord m1 none σ1 with
            | .error e => .error e
            | .ok (w2, m2, σ2) => generateWordsLoop k m2 w2 stop (w2 :: out) σ2 := rfl

/-- Once generation has entered a non-empty model, the word loop never
throws (the node count is preserved by every draw). -/
theorem generateWordsLoop_no_error (k : Nat) : ∀ (m : Model) (cur : Option Word)
    (stop : Bool) (out : List (Option Word)) (σ : List Nat),
    m.nodes.length ≠ 0 → ∀ x, generateWordsLoop k m cur stop out σ ≠ .error x := by
  induction k with
  | zero =>
    intro m cur stop out σ _ x
    simp [generateWordsLoop]
  | succ k ih =>
    intro m cur stop out σ h x
    have hok : generateWord m cur σ = .ok (generateWordOk m cur σ) :=
      generateWord_ok_of_len m cur σ h
    rcases hg : generateWordOk m cur σ with ⟨w, m1, σ1⟩
    rw [hg] at hok
    have h1 : m1.nodes.length ≠ 0 := by
      have hlen := generateWordOk_nodes_length m cur σ
      rw [hg] at hlen
      simp at hlen
      omega
    cases w with
    | some w =>
      rw [generateWordsLoop_succ]
      simp only [hok]
      exact ih m1 (some w) stop (some w :: out) σ1 h1 x
    | none =>
      by_cases hstop : stop = true
      · rw [generateWordsLoop_succ]
        simp [hok, hstop]
      · rw [Bool.not_eq_true] at hstop
        have hok2 : generateWord m1 none σ1 = .ok (generateWordOk m1 none σ1) :=
          generateWord_ok_of_len m1 none σ1 h1
        rcases hg2 : generateWordOk m1 none σ1 with ⟨w2, m2, σ2⟩
        rw [hg2] at hok2
        have h2 : m2.nodes.length ≠ 0 := by
          have hlen := generateWordOk_nodes_length m1 none σ1
          rw [hg2] at hlen
          simp at hlen
          omega
        rw [generateWordsLoop_succ]
        simp only [hok, hok2, hstop, Bool.false_eq_true, if_false]
        exact ih m2 w2 false (w2 :: out) σ2 h2 x

/-- If the word loop throws, the model is the one it was entered with. -/
theorem generateWordsLoop_error_model (k : Nat) (m : Model) (cur : Option Word)
    (stop : Bool) (out : List (Option Word)) (σ : List Nat) (e : GenError) (m' : Model)
    (h : generateWordsLoop k m cur stop out σ = .error (e, m')) : m' = m := by
  by_cases hl : m.nodes.length = 0
  · cases k with
    | zero => simp [generateWordsLoop] at h
    | succ k =>
      rw [generateWordsLoop_succ] at h
      have hgw : generateWord m cur σ = .error (.emptyModel, m) := by
        unfold generateWord
        rw [if_pos hl]
      rw [hgw] at h
      simp only [Except.error.injEq, Prod.mk.injEq] at h
      exact h.2.symm
  · exact absurd h (generateWordsLoop_no_error k m cur stop out σ hl (e, m'))

theorem generateSentencesLoop_eq (fuel : Nat) (m : Model) (cur : Option Word)
    (out : List (Option Word)) (σ : List Nat) (remaining : Nat) :
    generateSentencesLoop fuel m cur out σ remaining =
      if remaining = 0 then .ok out.reverse m σ
      else
        match fuel with
        | 0 => .more m
        | f + 1 =>
          match generateWord m cur σ with
          | .error (e, m1) => .err e m1
          | .ok (w, m1, σ1) =>
            generateSentencesLoop f m1 w (w :: out) σ1
              (if isSentenceWord w then remaining - 1 else remaining) := by
  rw [generateSentencesLoop.eq_def]

/-- Once generation has entered a non-empty model, the sentence loop
never throws. -/
theorem generateSentencesLoop_no_err (fuel : Nat) : ∀ (m : Model) (cur : Option Word)
    (out : List (Option Word)) (σ : List Nat) (remaining : Nat),
    m.nodes.length ≠ 0 →
    ∀ e m', generateSentencesLoop fuel m cur out σ remaining ≠ .err e m' := by
  induction fuel with
  | zero =>
    intro m cur out σ remaining _ e m'
    rw [generateSentencesLoop_eq]
    by_cases hr : remaining = 0 <;> simp [hr]
  | succ f ih =>
    intro m cur out σ remaining h e m'
    rw [generateSentencesLoop_eq]
    by_cases hr : remaining = 0
    · simp [hr]
    · have hok : generateWord m cur σ = .ok (generateWordOk m cur σ) :=
        generateWord_ok_of_len m cur σ h
      rcases hg : generateWordOk m cur σ with ⟨w, m1, σ1⟩
      rw [hg] at hok
      have h1 : m1.nodes.length ≠ 0 := by
        have hlen := generateWordOk_nodes_length m cur σ
        rw [hg] at hlen
        simp at hlen
        omega
      simp only [hr, if_false, hok]
      exact ih m1 w (w :: out) σ1 _ h1 e m'

/-- If the sentence loop throws, the model is the one it was entered
with. -/
theorem generateSentencesLoop_err_model (fuel : Nat) (m : Model) (cur : Option Word)
    (out : List (Option Word)) (σ : List Nat) (remaining : Nat) (e : GenError) (m' : Model)
    (h : generateSentencesLoop fuel m cur out σ remaining = .err e m') : m' = m := by
  by_cases hl : m.nodes.length = 0
  · rw [generateSentencesLoop_eq] at h
    by_cases hr : remaining = 0
    · rw [if_pos hr] at h
      exact absurd h (by simp)
    · rw [if_neg hr] at h
      cases fuel with
      | zero => exact absurd h (by simp)
      | succ f =>
        have hgw : generateWord m cur σ = .error (.emptyModel, m) := by
          unfold generateWord
          rw [if_pos hl]
        rw [hgw] at h
        simp only [SentResult.err.injEq] at h
        exact h.2.symm
  · exact absurd h (generateSentencesLoop_no_err fuel m cur out σ remaining hl e m')

/-- C9 -- the generation entry points validate their `amount` argument
up front: when it is not a positive finite integer, `generateWords`
throws `InvalidArgument` (and so does `generateSentences` once its
sentence-flag precondition holds); and every throw from either entry
point (`InvalidArgument`, `EmptyModel`, or `UnsupportedOperation`)
happens before any mutation, leaving the model — entries, `edges`
counter and `hasSentences` flag — exactly as it was. -/
theorem generation_errors_before_mutation (m : Model) (amount : JSNum) (root : Option Word)
    (stop : Bool) (σ : List Nat) (fuel : Nat) :
    (isPosFinInt amount = false →
      generateWords m amount root stop σ = .error (.invalidArgument, m)
      ∧ (m.hasSentences = true →
          generateSentences m amount root fuel σ = .err .invalidArgument m))
    ∧ (∀ e m', generateWords m amount root stop σ = .error (e, m') → m' = m)
    ∧ (∀ e m', generateSentences m amount root fuel σ = .err e m' → m' = m) := by
  refine ⟨?_, ?_, ?_⟩
  · intro hpf
    have hbad : badAmount amount = true := by
      rw [badAmount_eq_not_posFinInt, hpf]
      rfl
    constructor
    · unfold generateWords
      rw [hbad]
      rfl
    · intro hs
      unfold generateSentences
      rw [hs, hbad]
      rfl
  · intro e m' h
    unfold generateWords at h
    by_cases hb : badAmount amount = true
    · rw [if_pos hb] at h
      simp only [Except.error.injEq, Prod.mk.injEq] at h
      exact h.2.symm
    · rw [if_neg hb] at h
      exact generateWordsLoop_error_model _ _ _ _ _ _ e m' h
  · intro e m' h
    unfold generateSentences at h
    by_cases hs : m.hasSentences = true
    · by_cases hb : badAmount amount = true
      · simp only [hs, hb, Bool.not_true, Bool.false_eq_true, if_false, if_true,
          SentResult.err.injEq] at h
        exact h.2.symm
      · rw [Bool.not_eq_true] at hb
        simp only [hs, hb, Bool.not_true, Bool.false_eq_true, if_false] at h
        exact generateSentencesLoop_err_model _ _ _ _ _ _ e m' h
    · rw [Bool.not_eq_true] at hs
      simp only [hs, Bool.not_false, if_true, SentResult.err.injEq] at h
      exact h.2.symm

/-- C9 witness: `generateWords(0)` and `generateSentences(1/2)` throw
`InvalidArgument` and leave the concrete model untouched. -/
theorem generation_errors_before_mutation_witness :
    generateWords c8model (.num 0) none false [] = .error (.invalidArgument, c8model)
    ∧ generateSentences c8model .nan none 5 [] = .err .invalidArgument c8model :=
  ⟨((generation_errors_before_mutation c8model (.num 0) none false [] 5).1 (by decide)).1,
   ((generation_errors_before_mutation c8model .nan none false [] 5).1
      (by decide)).2 (by decide)⟩

/-! ## C10: the empty string as `root` -/

/-- C10 -- on a non-empty model, calling `generateWord` with the empty
string behaves exactly like calling it with `null`: `!root` is true for
the empty string, so a uniformly random key is selected and drawn from;
whereas a non-empty word unknown to the model takes the lookup path and
returns none. -/
theorem generateWord_empty_string_reseeds (m : Model) (σ : List Nat)
    (h : 0 < m.nodes.length) :
    generateWord m (some "") σ = generateWord m none σ
    ∧ (∀ w : Word, w ≠ "" → assocGet m.nodes w = none →
        generateWord m (some w) σ = .ok (none, m, σ)) := by
  constructor
  · rfl
  · intro w hw hget
    have hf : jsFalsy (some w) = false := by simp [jsFalsy, hw]
    rw [generateWord_ok_of_len m (some w) σ (by omega)]
    simp [generateWordOk, pickRoot, hf, hget]

/-- C10 witness: on the one-entry model, the empty string reseeds (and
the unknown word `"b"` returns none). -/
theorem generateWord_empty_string_reseeds_witness :
    generateWord c5model (some "") [] = generateWord c5model none []
    ∧ generateWord c5model (some "b") [] = .ok (none, c5model, []) :=
  ⟨(generateWord_empty_string_reseeds c5model [] (by decide)).1,
   (generateWord_empty_string_reseeds c5model [] (by decide)).2 "b" (by decide) (by decide)⟩

/-- C3 witness: the entry `{"x": 1, "y": 3}` with roll 2 yields a word
of `related` (namely `"y"`). -/
theorem selectWeighted_covers_witness :
    (0 < (4 : Nat) ∧
      ∃ w, (selectWeighted ⟨4, false, [], [("x", 1), ("y", 3)]⟩ 2).1 = some w
        ∧ w ∈ ([("x", 1), ("y", 3)] : List (Word × Nat)).map Prod.fst) :=
  ⟨by decide,
   (selectWeighted_covers ⟨4, false, [], [("x", 1), ("y", 3)]⟩ 2 (by decide)
      (by decide)).1 (by decide) (by decide)⟩

/-! ## The reachable-model invariant

Models reachable through `add` and the sampler satisfy: distinct keys,
mass conservation in every entry (spec §3), and a clean entry's cache is
exactly the compiled distribution of its current counts.  These are the
hypotheses of `selectWeighted_covers` and `load_toJSON_roundtrip`. -/

def wfModel (m : Model) : Prop :=
  (m.nodes.map Prod.fst).Nodup
  ∧ ∀ p ∈ m.nodes, wfNode p.2 ∧ (p.2.mapped = true → p.2.sums = sumsInto [] 0 p.2.related)

theorem wfModel_empty : wfModel emptyModel := by
  constructor
  · simp [emptyModel]
  · intro p hp
    simp [emptyModel] at hp

theorem assocGet_none_iff {α : Type} : ∀ (l : List (Word × α)) (w : Word),
    assocGet l w = none ↔ w ∉ l.map Prod.fst
  | [], w => by simp [assocGet]
  | (k, v) :: t, w => by
    by_cases h : k = w <;> simp [assocGet, h, assocGet_none_iff t w, eq_comm]

theorem assocUpdate_map_fst {α : Type} : ∀ (l : List (Word × α)) (w : Word) (f : α → α),
    (assocUpdate l w f).map Prod.fst = l.map Prod.fst
  | [], _, _ => rfl
  | (k, v) :: t, w, f => by
    by_cases h : k = w <;> simp [assocUpdate, h, assocUpdate_map_fst t w f]

theorem assocUpdate_mem {α : Type} : ∀ (l : List (Word × α)) (w : Word) (f : α → α)
    (p : Word × α), p ∈ assocUpdate l w f → p ∈ l ∨ ∃ v, (w, v) ∈ l ∧ p = (w, f v)
  | [], _, _, _, h => by simp [assocUpdate] at h
  | (k, v) :: t, w, f, p, h => by
    by_cases hk : k = w
    · simp only [assocUpdate, if_pos hk, List.mem_cons] at h
      rcases h with h | h
      · exact Or.inr ⟨v, by simp [hk, h]⟩
      · exact Or.inl (List.mem_cons_of_mem _ h)
    · simp only [assocUpdate, if_neg hk, List.mem_cons] at h
      rcases h with h | h
      · exact Or.inl (by simp [h])
      · rcases assocUpdate_mem t w f p h with h' | ⟨v', hv, hp⟩
        · exact Or.inl (List.mem_cons_of_mem _ h')
        · exact Or.inr ⟨v', List.mem_cons_of_mem _ hv, hp⟩

theorem sumCounts_bumpRelated : ∀ (rel : List (Word × Nat)) (w : Word),
    sumCounts (bumpRelated rel w) = sumCounts rel + 1
  | [], _ => rfl
  | (k, c) :: t, w => by
    by_cases h : k = w <;> simp [bumpRelated, h, sumCounts, sumCounts_bumpRelated t w] <;> omega

theorem bumpRelated_pos : ∀ (rel : List (Word × Nat)) (w : Word),
    (∀ p ∈ rel, 0 < p.2) → ∀ p ∈ bumpRelated rel w, 0 < p.2
  | [], w, _, p, hp => by
    simp [bumpRelated] at hp
    simp [hp]
  | (k, c) :: t, w, hpos, p, hp => by
    by_cases h : k = w
    · simp only [bumpRelated, if_pos h, List.mem_cons] at hp
      rcases hp with hp | hp
      · simp [hp]
      · exact hpos p (List.mem_cons_of_mem _ hp)
    · simp only [bumpRelated, if_neg h, List.mem_cons] at hp
      rcases hp with hp | hp
      · exact hp ▸ hpos (k, c) (List.mem_cons_self _ _)
      · exact bumpRelated_pos t w (fun q hq => hpos q (List.mem_cons_of_mem _ hq)) p hp

theorem touchNode_wf (n : Node) (w : Word) (h : wfNode n) : wfNode (touchNode n w) := by
  obtain ⟨hpos, htot⟩ := h
  constructor
  · exact bumpRelated_pos n.related w hpos
  · show n.total + 1 = sumCounts (bumpRelated n.related w)
    rw [sumCounts_bumpRelated, htot]

theorem wfModel_addPair (m : Model) (p : Word × Word) (h : wfModel m) :
    wfModel (addPair m p) := by
  obtain ⟨hnd, hent⟩ := h
  have hstep : ∀ nodes0 : List (Word × Node),
      (nodes0.map Prod.fst).Nodup →
      (∀ q ∈ nodes0, wfNode q.2 ∧ (q.2.mapped = true → q.2.sums = sumsInto [] 0 q.2.related)) →
      ((assocUpdate nodes0 p.1 fun n => touchNode n p.2).map Prod.fst).Nodup
      ∧ ∀ q ∈ assocUpdate nodes0 p.1 fun n => touchNode n p.2,
          wfNode q.2 ∧ (q.2.mapped = true → q.2.sums = sumsInto [] 0 q.2.related) := by
    intro nodes0 hnd0 hent0
    constructor
    · rw [assocUpdate_map_fst]
      exact hnd0
    · intro q hq
      rcases assocUpdate_mem nodes0 p.1 _ q hq with hq' | ⟨v, hv, hqv⟩
      · exact hent0 q hq'
      · refine ⟨?_, ?_⟩
        · rw [hqv]
          exact touchNode_wf v p.2 (hent0 (p.1, v) hv).1
        · intro hm
          rw [hqv] at hm
          simp [touchNode] at hm
  by_cases hk : (assocGet m.nodes p.1).isSome
  · have := hstep m.nodes hnd hent
    unfold addPair
    rw [if_pos hk]
    exact this
  · have hnotin : p.1 ∉ m.nodes.map Prod.fst := by
      rw [← assocGet_none_iff]
      simp only [Option.isSome] at hk
      cases hg : assocGet m.nodes p.1
      · rfl
      · rw [hg] at hk
        simp at hk
    have hnd1 : ((m.nodes ++ [(p.1, initNode)]).map Prod.fst).Nodup := by
      simp only [List.map_append]
      simp [List.nodup_append, hnd, hnotin]
    have hent1 : ∀ q ∈ m.nodes ++ [(p.1, initNode)],
        wfNode q.2 ∧ (q.2.mapped = true → q.2.sums = sumsInto [] 0 q.2.related) := by
      intro q hq
      rcases List.mem_append.1 hq with hq | hq
      · exact hent q hq
      · simp at hq
        rw [hq]
        exact ⟨⟨by simp [initNode], by simp [initNode, sumCounts]⟩, by simp [initNode]⟩
    have := hstep (m.nodes ++ [(p.1, initNode)]) hnd1 hent1
    unfold addPair
    rw [if_neg hk]
    exact this

/-- Ingestion preserves the model invariant. -/
theorem wfModel_add (m : Model) (s : String) (h : wfModel m) : wfModel (add m s) := by
  unfold add
  by_cases hl : (tokenize s).length < 2
  · rw [if_pos hl]
    exact h
  · rw [if_neg hl]
    have : ∀ (ps : List (Word × Word)) (m0 : Model), wfModel m0 → wfModel (ps.foldl addPair m0) := by
      intro ps
      induction ps with
      | nil => intro m0 h0; exact h0
      | cons p t ih =>
        intro m0 h0
        exact ih (addPair m0 p) (wfModel_addPair m0 p h0)
    exact this (pairsOf (tokenize s)) _ h

theorem assocGet_mem {α : Type} : ∀ (l : List (Word × α)) (w : Word) (v : α),
    assocGet l w = some v → (w, v) ∈ l
  | [], _, _, h => by simp [assocGet] at h
  | (k, v') :: t, w, v, h => by
    by_cases hk : k = w
    · simp only [assocGet, if_pos hk] at h
      simp only [Option.some.injEq] at h
      rw [← hk, ← h]
      exact List.mem_cons_self _ _
    · simp only [assocGet, if_neg hk] at h
      exact List.mem_cons_of_mem _ (assocGet_mem t w v h)

/-- Storing a compiled node back preserves the model invariant:
compilation only installs the distribution of the current counts. -/
theorem wfModel_drawUpdate (m : Model) (w : Word) (n : Node) (r : Nat)
    (h : wfModel m) (heq : assocGet m.nodes w = some n) :
    wfModel { m with nodes := assocUpdate m.nodes w fun _ => (selectWeighted n r).2 } := by
  obtain ⟨hnd, hent⟩ := h
  refine ⟨?_, ?_⟩
  · show ((assocUpdate m.nodes w fun _ => (selectWeighted n r).2).map Prod.fst).Nodup
    rw [assocUpdate_map_fst]
    exact hnd
  · intro q hq
    rcases assocUpdate_mem _ _ _ q hq with hq' | ⟨v, hv, hqv⟩
    · exact hent q hq'
    · have hn := hent _ (assocGet_mem m.nodes _ _ heq)
      have hq2 : q.2 = calculateWeights n := by rw [hqv]; rfl
      rw [hq2]
      refine ⟨⟨?_, ?_⟩, ?_⟩
      · rw [calculateWeights_related]
        exact hn.1.1
      · show (calculateWeights n).total = sumCounts (calculateWeights n).related
        rw [calculateWeights_total, calculateWeights_related]
        exact hn.1.2
      · intro _
        by_cases hm : n.mapped = true
        · have hcw : calculateWeights n = n := by
            unfold calculateWeights
            rw [if_pos hm]
          show (calculateWeights n).sums = sumsInto [] 0 (calculateWeights n).related
          rw [hcw]
          exact hn.2 hm
        · rw [Bool.not_eq_true] at hm
          show (calculateWeights n).sums = sumsInto [] 0 (calculateWeights n).related
          unfold calculateWeights
          rw [hm]
          rfl

/-- A draw preserves the model invariant. -/
theorem wfModel_generateWordOk (m : Model) (root : Option Word) (σ : List Nat)
    (h : wfModel m) : wfModel (generateWordOk m root σ).2.1 := by
  simp only [generateWordOk]
  split
  · exact h
  next n heq =>
    exact wfModel_drawUpdate m (pickRoot m root σ).1 n ((pickRoot m root σ).2.headD 0) h heq

/-- C5 witness: the amended scenario evaluated on a concrete random
stream. -/
theorem generateWords_dead_end_output_witness :
    genOutput (generateWords c5model (.num 3) none true [4, 7]) = some [some "b"] :=
  generateWords_dead_end_output [4, 7]

/-- C8 witness: the amended reset behavior evaluated on the concrete
model. -/
theorem reset_clears_only_nodes_witness :
    (reset c8model).nodes = [] ∧ (reset c8model).edges = c8model.edges
    ∧ (reset c8model).hasSentences = c8model.hasSentences :=
  reset_clears_only_nodes c8model
